import Mathlib

/-!
Verification development for the HTLC order canister
(`src/rust/basic_bitcoin/src/service/htlc_orders.rs`).

The Rust code is shallowly embedded: byte strings are `List Nat` (each
entry a byte value), machine integers are `Nat`/`Int` with explicit
`% 2 ^ 64` / `% 2 ^ 32` wherever Rust wrapping or `as`-casts occur,
fallible operations return `Except String`, and the asynchronous external
collaborators (ECDSA key-derivation service, UTXO provider, fee oracle,
transaction builder/signer, broadcaster) are supplied as an explicit
environment of deterministic functions, with the calls a run issues
recorded in a trace list.
-/

set_option maxRecDepth 100000

deriving instance DecidableEq for Except

/-! ## Hex decoding (model of the `hex` crate's `hex::decode`) -/

/-- Value of one hex digit character, `none` for a non-hex character. -/
def hexDigitVal? (c : Char) : Option Nat :=
  if 48 ≤ c.toNat ∧ c.toNat ≤ 57 then some (c.toNat - 48)
  else if 97 ≤ c.toNat ∧ c.toNat ≤ 102 then some (c.toNat - 87)
  else if 65 ≤ c.toNat ∧ c.toNat ≤ 70 then some (c.toNat - 55)
  else none

/-- Decode a list of hex characters two at a time; fails on odd length or a
non-hex character, exactly as `hex::decode` does. -/
def hexPairs : List Char → Option (List Nat)
  | [] => some []
  | [_] => none
  | c1 :: c2 :: rest =>
    match hexDigitVal? c1, hexDigitVal? c2, hexPairs rest with
    | some hi, some lo, some tail => some ((16 * hi + lo) :: tail)
    | _, _, _ => none

/-- Model of `hex::decode` on a Rust string. -/
def hexDecode (s : String) : Option (List Nat) :=
  hexPairs s.data

/-! ## secp256k1 public-key validation
(model of `bitcoin::PublicKey` / `bitcoin::CompressedPublicKey` parsing,
which delegates to libsecp256k1's `ec_pubkey_parse`) -/

/-- The secp256k1 base field prime. -/
def secp256k1P : Nat := 2 ^ 256 - 2 ^ 32 - 977

/-- Fuel-driven fast modular exponentiation (square and multiply), the
algorithm libsecp256k1 uses for field exponentiations. -/
def powModGo : Nat → Nat → Nat → Nat → Nat
  | 0, _, _, _ => 1
  | f + 1, b, e, m =>
    if e = 0 then 1 % m
    else
      let r := powModGo f ((b * b) % m) (e / 2) m
      if e % 2 = 1 then (r * (b % m)) % m else r

/-- `powMod b e m = b ^ e % m` computed by binary exponentiation. -/
def powMod (b e m : Nat) : Nat := powModGo (e + 1) b e m

/-- Candidate square root mod the secp256k1 prime, via the
`c ^ ((p + 1) / 4)` formula valid for `p ≡ 3 [MOD 4]` (as in
`secp256k1_fe_sqrt`). -/
def sqrtModP (c : Nat) : Nat := powMod c ((secp256k1P + 1) / 4) secp256k1P

/-- Does `c` have a square root modulo the secp256k1 prime?  libsecp
computes the candidate root and squares it back to check. -/
def isSquareModP (c : Nat) : Bool :=
  (sqrtModP c * sqrtModP c) % secp256k1P == c % secp256k1P

/-- Big-endian bytes to natural number. -/
def beNat (l : List Nat) : Nat := l.foldl (fun acc b => acc * 256 + b) 0

/-- A compressed public-key encoding is valid iff the prefix byte is 2 or 3,
the x coordinate is a field element, and `x ^ 3 + 7` is a square
(so a y coordinate exists). -/
def validCompressed (pfx : Nat) (x : Nat) : Bool :=
  (pfx == 2 || pfx == 3) && decide (x < secp256k1P)
    && isSquareModP ((x ^ 3 + 7) % secp256k1P)

/-- An affine point is on the secp256k1 curve `y ^ 2 = x ^ 3 + 7`. -/
def onCurve (x y : Nat) : Bool :=
  decide (x < secp256k1P) && decide (y < secp256k1P)
    && ((y * y) % secp256k1P == (x ^ 3 + 7) % secp256k1P)

/-- Model of `bitcoin::PublicKey::from_slice`: accepts a valid 33-byte
compressed or 65-byte uncompressed (or hybrid 6/7) SEC encoding and keeps
the key's canonical serialization (hybrid keys re-serialize uncompressed). -/
def PublicKey.from_slice (b : List Nat) : Except String (List Nat) :=
  if b.length = 33 then
    match b with
    | pfx :: xs =>
      if validCompressed pfx (beNat xs) then .ok b
      else .error "malformed public key"
    | [] => .error "invalid public key length"
  else if b.length = 65 then
    match b with
    | pfx :: rest =>
      let x := beNat (rest.take 32)
      let y := beNat (rest.drop 32)
      if pfx == 4 then
        if onCurve x y then .ok b else .error "malformed public key"
      else if pfx == 6 || pfx == 7 then
        if onCurve x y && (y % 2 == (if pfx == 7 then 1 else 0)) then
          .ok (4 :: rest)
        else .error "malformed public key"
      else .error "malformed public key"
    | [] => .error "invalid public key length"
  else .error "invalid public key length"

/-- Model of `bitcoin::CompressedPublicKey::from_slice`: exactly 33 valid
compressed-encoding bytes. -/
def CompressedPublicKey.from_slice (b : List Nat) : Except String (List Nat) :=
  if b.length = 33 then
    match b with
    | pfx :: xs =>
      if validCompressed pfx (beNat xs) then .ok b
      else .error "malformed public key"
    | [] => .error "invalid public key length"
  else .error "invalid public key length"

/-- Model of `bitcoin::PublicKey::from_str`: the string must be exactly 66
or 130 hex characters, which are decoded and parsed as an SEC encoding. -/
def PublicKey.from_str (s : String) : Except String (List Nat) :=
  if s.length = 66 ∨ s.length = 130 then
    match hexDecode s with
    | some b => PublicKey.from_slice b
    | none => .error "invalid hex"
  else .error "invalid public key length"

/-! ## Script builder (model of `bitcoin::script::Builder`)
A script is its byte list. -/

def OP_0 : Nat := 0x00
def OP_PUSHDATA1 : Nat := 0x4c
def OP_PUSHDATA2 : Nat := 0x4d
def OP_PUSHDATA4 : Nat := 0x4e
def OP_1NEGATE : Nat := 0x4f
def OP_IF : Nat := 0x63
def OP_ELSE : Nat := 0x67
def OP_ENDIF : Nat := 0x68
def OP_DROP : Nat := 0x75
def OP_EQUALVERIFY : Nat := 0x88
def OP_SHA256 : Nat := 0xa8
def OP_CHECKSIG : Nat := 0xac
def OP_CSV : Nat := 0xb2

/-- `Builder::push_opcode`: append the opcode byte. -/
def push_opcode (b : List Nat) (op : Nat) : List Nat := b ++ [op]

/-- Serialization of a data push: length-prefixed directly below 76 bytes,
otherwise via OP_PUSHDATA1/2/4 with a little-endian length. -/
def pushdataEnc (d : List Nat) : List Nat :=
  if d.length < 76 then d.length :: d
  else if d.length ≤ 0xff then OP_PUSHDATA1 :: d.length :: d
  else if d.length ≤ 0xffff then
    OP_PUSHDATA2 :: d.length % 256 :: d.length / 256 :: d
  else
    OP_PUSHDATA4 :: d.length % 256 :: d.length / 256 % 256
      :: d.length / 2 ^ 16 % 256 :: d.length / 2 ^ 24 % 256 :: d

/-- `Builder::push_slice`. -/
def push_slice (b : List Nat) (d : List Nat) : List Nat := b ++ pushdataEnc d

/-- `Builder::push_key`: pushes the key's serialization. -/
def push_key (b : List Nat) (k : List Nat) : List Nat := b ++ pushdataEnc k

/-- Little-endian base-256 digits of a natural number (no trailing zero),
fuel-driven. -/
def natLEGo : Nat → Nat → List Nat
  | 0, _ => []
  | f + 1, m => if m = 0 then [] else m % 256 :: natLEGo f (m / 256)

/-- Little-endian minimal byte encoding of a natural number. -/
def natLEBytes (m : Nat) : List Nat := natLEGo (m + 1) m

/-- Model of `bitcoin::script::write_scriptint`: minimal little-endian
signed-magnitude encoding used for script integers. -/
def scriptIntEnc (n : Int) : List Nat :=
  if n = 0 then []
  else
    let mag := natLEBytes n.natAbs
    if mag.getLastD 0 ≥ 0x80 then mag ++ [if n < 0 then 0x80 else 0]
    else mag.dropLast ++ [mag.getLastD 0 + if n < 0 then 0x80 else 0]

/-- Bytes emitted by `Builder::push_int`: the small-number opcodes for
`-1` and `1..=16`, `OP_0` for zero, otherwise a push of the scriptint
encoding. -/
def pushIntEnc (n : Int) : List Nat :=
  if n = -1 ∨ (1 ≤ n ∧ n ≤ 16) then [(n + 80).toNat]
  else if n = 0 then [OP_0]
  else pushdataEnc (scriptIntEnc n)

/-- `Builder::push_int`. -/
def push_int (b : List Nat) (n : Int) : List Nat := b ++ pushIntEnc n

/-- The Rust cast `u64 as i64` (two's-complement reinterpretation). -/
def i64OfU64 (t : Nat) : Int :=
  if t % 2 ^ 64 < 2 ^ 63 then ((t % 2 ^ 64 : Nat) : Int)
  else ((t % 2 ^ 64 : Nat) : Int) - 2 ^ 64

/-- The `PushBytes` type invariant of rust-bitcoin: pushed data may not
exceed `u32::MAX` bytes, so `PushBytesBuf::push` fails beyond that. -/
def pushBytesLimit : Nat := 0xffffffff

/-! ## `generate_p2wsh_htlc_script` (htlc_orders.rs lines 147-187) -/

/-- Model of `generate_p2wsh_htlc_script`: hex-decode the payment hash,
copy it byte-by-byte into a push buffer, parse both public keys, then
build the two-branch HTLC script with the builder chain of the source. -/
def generate_p2wsh_htlc_script (payment_hash initiator_pubkey responder_pubkey : String)
    (timelock : Nat) : Except String (List Nat) :=
  match hexDecode payment_hash with
  | none => .error "Failed to decode payment hash"
  | some payment_hash_bytes =>
    if payment_hash_bytes.length > pushBytesLimit then
      .error "Failed to push byte to buffer"
    else
      match PublicKey.from_str initiator_pubkey with
      | .error _ => .error "Failed to parse initiator public key"
      | .ok ikey =>
        match PublicKey.from_str responder_pubkey with
        | .error _ => .error "Failed to parse responder public key"
        | .ok rkey =>
          let b := push_opcode [] OP_IF
          let b := push_opcode b OP_SHA256
          let b := push_slice b payment_hash_bytes
          let b := push_opcode b OP_EQUALVERIFY
          let b := push_key b rkey
          let b := push_opcode b OP_CHECKSIG
          let b := push_opcode b OP_ELSE
          let b := push_int b (i64OfU64 timelock)
          let b := push_opcode b OP_CSV
          let b := push_opcode b OP_DROP
          let b := push_key b ikey
          let b := push_opcode b OP_CHECKSIG
          let b := push_opcode b OP_ENDIF
          .ok b

section KeyMaterial

/-- Uncompressed generator point of secp256k1, as a key string. -/
def gUncompressedHex : String :=
  "0479be667ef9dcbbac55a06295ce870b07029bfcdb2dce28d959f2815b16f81798483ada7726a3c4655da4fbfc0e1108a8fd17b448a68554199c47d08ffb10d4b8"

/-- Uncompressed double of the generator point, as a key string. -/
def g2UncompressedHex : String :=
  "04c6047f9441ed7d6d3045406e95c07cd85c778e4b8cef3ca7abac09b95c709ee51ae168fea63dc339a3c58419466ceaeef7f632653266d0e1236431a950cfe52a"

/-- Compressed generator point of secp256k1, as a key string. -/
def gCompressedHex : String :=
  "0279be667ef9dcbbac55a06295ce870b07029bfcdb2dce28d959f2815b16f81798"

example : (PublicKey.from_str gUncompressedHex).isOk = true := by decide
example : (PublicKey.from_str g2UncompressedHex).isOk = true := by decide
example : (PublicKey.from_str "zz").isOk = false := by decide
example : (generate_p2wsh_htlc_script "ab" gUncompressedHex g2UncompressedHex 5).isOk = true := by
  decide
example :
    (CompressedPublicKey.from_slice ((hexDecode gCompressedHex).getD [])).isOk = true := by decide

end KeyMaterial

/-! ## Order storage (htlc_orders.rs lines 19-89)

`HashMap<u64, HtlcDetail>` is modelled as an association list whose
`insert` replaces any previous binding of the key; lookups observe exactly
the `HashMap` semantics, and iteration order is unspecified just as for
the Rust map. -/

/-- Model of the Rust struct `HtlcDetail`. -/
structure HtlcDetail where
  initiator_pubkey : String
  time_lock : Nat
  secret_hash : String
  htlc_address : Option String
deriving DecidableEq

/-- Model of the Rust struct `OrderStorage`. -/
structure OrderStorage where
  orders : List (Nat × HtlcDetail)
  next_order_no : Nat
deriving DecidableEq

/-- `OrderStorage::new`: empty map, counter starts at 1. -/
def OrderStorage.new : OrderStorage := ⟨[], 1⟩

/-- `HashMap::insert`: bind `k` to `v`, replacing any previous binding. -/
def mapInsert (k : Nat) (v : HtlcDetail) (m : List (Nat × HtlcDetail)) :
    List (Nat × HtlcDetail) :=
  (k, v) :: m.filter (fun kv => kv.1 != k)

/-- `HashMap::get`. -/
def mapGet (k : Nat) (m : List (Nat × HtlcDetail)) : Option HtlcDetail :=
  (m.find? (fun kv => kv.1 == k)).map (fun kv => kv.2)

/-- `HashMap::get_mut` followed by setting the `htlc_address` field
(htlc_orders.rs lines 136-141): update in place if the key is present. -/
def mapSetHtlcAddress (k : Nat) (a : String) (m : List (Nat × HtlcDetail)) :
    List (Nat × HtlcDetail) :=
  m.map (fun kv =>
    if kv.1 = k then (kv.1, { kv.2 with htlc_address := some a }) else kv)

/-- Model of `create_order` (lines 48-65).  The returned pair is
(returned order number, storage after the call); the `u64` counter
increment wraps at `2 ^ 64`. -/
def create_order (s : OrderStorage) (initiator_pubkey : String) (time_lock : Nat)
    (secret_hash : String) : Nat × OrderStorage :=
  let order_no := s.next_order_no
  let htlc_detail : HtlcDetail := ⟨initiator_pubkey, time_lock, secret_hash, none⟩
  (order_no,
    ⟨mapInsert order_no htlc_detail s.orders, (s.next_order_no + 1) % 2 ^ 64⟩)

/-- Model of `get_order` (lines 68-73). -/
def get_order (s : OrderStorage) (order_no : Nat) : Option HtlcDetail :=
  mapGet order_no s.orders

/-- Model of `get_all_orders` (lines 76-81); iteration order unspecified. -/
def get_all_orders (s : OrderStorage) : List (Nat × HtlcDetail) :=
  s.orders

/-- Model of `get_next_order_no` (lines 84-89). -/
def get_next_order_no (s : OrderStorage) : Nat :=
  s.next_order_no

/-- Run a sequence of `create_order` calls, collecting the returned order
numbers and the final storage. -/
def runCreates : OrderStorage → List (String × Nat × String) → List Nat × OrderStorage
  | s, [] => ([], s)
  | s, a :: rest =>
    let r := create_order s a.1 a.2.1 a.2.2
    let rr := runCreates r.2 rest
    (r.1 :: rr.1, rr.2)

/-! ### Association-map lemmas -/

theorem mapGet_insert_self (k : Nat) (v : HtlcDetail) (m : List (Nat × HtlcDetail)) :
    mapGet k (mapInsert k v m) = some v := by
  simp [mapGet, mapInsert, List.find?_cons_of_pos]

theorem find?_filter_ne (k k' : Nat) (m : List (Nat × HtlcDetail)) (h : k' ≠ k) :
    (m.filter (fun kv => kv.1 != k)).find? (fun kv => kv.1 == k')
      = m.find? (fun kv => kv.1 == k') := by
  induction m with
  | nil => rfl
  | cons kv rest ih =>
    by_cases hkeq : kv.1 = k
    · have h1 : (kv.1 != k) = false := by simp [hkeq]
      have h2 : (kv.1 == k') = false := by simp [hkeq, Ne.symm h]
      simp only [List.filter_cons, h1, Bool.false_eq_true, if_false, List.find?_cons, h2]
      exact ih
    · have h1 : (kv.1 != k) = true := by simp [hkeq]
      simp only [List.filter_cons, h1, if_true, List.find?_cons]
      cases hq : (kv.1 == k') <;> simp only [hq, ih]

theorem mapGet_insert_ne (k k' : Nat) (v : HtlcDetail) (m : List (Nat × HtlcDetail))
    (h : k' ≠ k) : mapGet k' (mapInsert k v m) = mapGet k' m := by
  unfold mapGet mapInsert
  rw [List.find?_cons_of_neg _ (by simp [Ne.symm h]), find?_filter_ne k k' m h]

theorem mapGet_set_self (k : Nat) (a : String) (m : List (Nat × HtlcDetail))
    (o : HtlcDetail) (h : mapGet k m = some o) :
    mapGet k (mapSetHtlcAddress k a m) = some { o with htlc_address := some a } := by
  induction m with
  | nil => simp [mapGet] at h
  | cons kv rest ih =>
    by_cases hk : kv.1 = k
    · have hpos : (kv.1 == k) = true := by simp [hk]
      have ho : kv.2 = o := by
        have h0 := h
        simp only [mapGet, List.find?_cons, hpos] at h0
        simpa using h0
      simp only [mapSetHtlcAddress, List.map_cons, if_pos hk, mapGet, List.find?_cons, hpos]
      simp [ho]
    · have hneg : (kv.1 == k) = false := by simp [hk]
      have h' : mapGet k rest = some o := by
        have h0 := h
        simp only [mapGet, List.find?_cons, hneg] at h0
        exact h0
      have ihr := ih h'
      simp only [mapSetHtlcAddress, List.map_cons, if_neg hk, mapGet, List.find?_cons, hneg]
      simpa [mapGet, mapSetHtlcAddress] using ihr

theorem mapGet_set_ne (k k' : Nat) (a : String) (m : List (Nat × HtlcDetail))
    (h : k' ≠ k) : mapGet k' (mapSetHtlcAddress k a m) = mapGet k' m := by
  induction m with
  | nil => rfl
  | cons kv rest ih =>
    by_cases hk : kv.1 = k
    · have hkk' : (kv.1 == k') = false := by simp [hk, Ne.symm h]
      simp only [mapSetHtlcAddress, List.map_cons, if_pos hk, mapGet, List.find?_cons, hkk']
      simpa [mapGet, mapSetHtlcAddress] using ih
    · cases hq : (kv.1 == k') with
      | true =>
        simp only [mapSetHtlcAddress, List.map_cons, if_neg hk, mapGet, List.find?_cons, hq]
      | false =>
        simp only [mapSetHtlcAddress, List.map_cons, if_neg hk, mapGet, List.find?_cons, hq]
        simpa [mapGet, mapSetHtlcAddress] using ih

/-! ### Order-number sequence (claims C4, C6) -/

theorem range'_map_mod (a n : Nat) :
    (List.range' a n).map (· % 2 ^ 64) = (List.range' (a % 2 ^ 64) n).map (· % 2 ^ 64) := by
  induction n generalizing a with
  | zero => rfl
  | succ n ih =>
    rw [List.range'_succ, List.range'_succ, List.map_cons, List.map_cons]
    have h1 : a % 2 ^ 64 % 2 ^ 64 = a % 2 ^ 64 := Nat.mod_mod_of_dvd a dvd_rfl
    have h2 : (a + 1) % 2 ^ 64 = (a % 2 ^ 64 + 1) % 2 ^ 64 := by
      conv_lhs => rw [Nat.add_mod]
      conv_rhs => rw [Nat.add_mod, h1]
    rw [ih (a + 1), ih (a % 2 ^ 64 + 1), h1, h2]

/-- Characterization of a `create_order` burst: the returned numbers are the
`u64`-wrapped values of the counter run, and the counter advances by the
number of calls, wrapping modulo `2 ^ 64`. -/
theorem runCreates_spec (l : List (String × Nat × String)) (s : OrderStorage)
    (h : s.next_order_no < 2 ^ 64) :
    (runCreates s l).1 = (List.range' s.next_order_no l.length).map (· % 2 ^ 64)
    ∧ (runCreates s l).2.next_order_no = (s.next_order_no + l.length) % 2 ^ 64 := by
  induction l generalizing s with
  | nil =>
    constructor
    · rfl
    · simp only [runCreates, List.length_nil, Nat.add_zero]
      omega
  | cons a rest ih =>
    have hlt : (s.next_order_no + 1) % 2 ^ 64 < 2 ^ 64 :=
      Nat.mod_lt _ (by norm_num)
    obtain ⟨h1, h2⟩ :=
      ih ⟨mapInsert s.next_order_no ⟨a.1, a.2.1, a.2.2, none⟩ s.orders,
          (s.next_order_no + 1) % 2 ^ 64⟩ hlt
    constructor
    · simp only [runCreates, create_order, List.length_cons]
      rw [h1, List.range'_succ, List.map_cons, Nat.mod_eq_of_lt h,
        ← range'_map_mod (s.next_order_no + 1) rest.length]
    · simp only [runCreates, create_order, List.length_cons]
      rw [h2]
      conv_rhs => rw [show s.next_order_no + (rest.length + 1)
            = (s.next_order_no + 1) + rest.length by omega]
      rw [Nat.mod_add_mod]

/-- C4 (amended): for fewer than `2 ^ 64 - 1` calls, the returned order
numbers are exactly `1, 2, ..., n` and the counter reads `n + 1`. -/
theorem create_order_sequence (l : List (String × Nat × String))
    (h : l.length < 2 ^ 64 - 1) :
    (runCreates OrderStorage.new l).1 = List.range' 1 l.length
    ∧ get_next_order_no (runCreates OrderStorage.new l).2 = l.length + 1 := by
  obtain ⟨h1, h2⟩ := runCreates_spec l OrderStorage.new (by norm_num [OrderStorage.new])
  refine ⟨?_, ?_⟩
  · rw [h1]
    have hp : ∀ x ∈ List.range' (OrderStorage.new.next_order_no) l.length,
        x % 2 ^ 64 = x := by
      intro x hx
      rw [List.mem_range'_1] at hx
      exact Nat.mod_eq_of_lt (by
        have : (OrderStorage.new.next_order_no : Nat) = 1 := rfl
        omega)
    rw [List.map_congr_left hp]
    simp [OrderStorage.new]
  · rw [get_next_order_no, h2]
    have : OrderStorage.new.next_order_no + l.length < 2 ^ 64 := by
      have : (OrderStorage.new.next_order_no : Nat) = 1 := rfl
      omega
    rw [Nat.mod_eq_of_lt this]
    have : (OrderStorage.new.next_order_no : Nat) = 1 := rfl
    omega

theorem create_order_sequence_witness :
    (runCreates OrderStorage.new [("a", 1, "x"), ("b", 2, "y")]).1 = List.range' 1 2
    ∧ get_next_order_no (runCreates OrderStorage.new [("a", 1, "x"), ("b", 2, "y")]).2
        = 2 + 1 :=
  create_order_sequence [("a", 1, "x"), ("b", 2, "y")] (by decide)

/-- C4 counterexample: at `2 ^ 64` calls the `u64` counter wraps, the
`2 ^ 64`-th returned order number is `0`, and the returned sequence is not
`1, 2, 3, ...`. -/
theorem create_order_sequence_wraps :
    (runCreates OrderStorage.new (List.replicate (2 ^ 64) ("", 0, ""))).1
      ≠ List.range' 1 (2 ^ 64) := by
  intro heq
  obtain ⟨h1, -⟩ := runCreates_spec (List.replicate (2 ^ 64) ("", 0, ""))
    OrderStorage.new (by norm_num [OrderStorage.new])
  rw [List.length_replicate] at h1
  rw [h1] at heq
  have hmem : (2 ^ 64 : Nat) ∈ List.range' (OrderStorage.new.next_order_no) (2 ^ 64) := by
    rw [List.mem_range'_1]
    have : (OrderStorage.new.next_order_no : Nat) = 1 := rfl
    omega
  rw [show (List.range' 1 (2 ^ 64) : List Nat)
        = List.range' (OrderStorage.new.next_order_no) (2 ^ 64) from rfl] at heq
  rw [← heq] at hmem
  obtain ⟨x, -, hx⟩ := List.mem_map.mp hmem
  have hlt : x % 2 ^ 64 < 2 ^ 64 := Nat.mod_lt _ (by norm_num)
  omega

/-- C6: immediately after `create_order(p, t, h)` returns `n`,
`get_order(n)` yields the record with exactly those fields, stored
verbatim, and no cached address. -/
theorem create_order_get_order (s : OrderStorage) (p : String) (t : Nat) (h : String) :
    get_order (create_order s p t h).2 (create_order s p t h).1
      = some ⟨p, t, h, none⟩ := by
  simp [create_order, get_order, mapGet_insert_self]

/-! ## Addresses and the external environment -/

/-- Model of `bitcoin::Network` (the values relevant to the canister). -/
inductive Network where
  | bitcoin
  | testnet
  | signet
  | regtest
deriving DecidableEq

/-- Witness program of a segwit address: the hashed payload together with
its kind. -/
inductive WitnessProgram where
  | p2wpkh (h : List Nat)
  | p2wsh (h : List Nat)
deriving DecidableEq

/-- A Bitcoin address: network plus witness program. -/
structure Addr where
  network : Network
  program : WitnessProgram
deriving DecidableEq

/-- Model of `Address::p2wpkh`: HASH160 of the compressed key bytes.  The
HASH160 function itself (RIPEMD160 of SHA-256, an external cryptographic
primitive) is passed in as a parameter. -/
def Address.p2wpkh (hash160f : List Nat → List Nat) (key : List Nat)
    (net : Network) : Addr :=
  ⟨net, .p2wpkh (hash160f key)⟩

/-- Model of `Address::p2wsh`: SHA-256 of the script bytes, the hash
function itself passed in as a parameter. -/
def Address.p2wsh (sha256f : List Nat → List Nat) (script : List Nat)
    (net : Network) : Addr :=
  ⟨net, .p2wsh (sha256f script)⟩

/-- Modelled from the spec: `DerivationPath::p2wpkh(account, index)` lives
in the repository's `common` module, which is not under `src/`.  Per the
spec (§4.2) the path is "deterministically keyed by `order_no` (e.g.,
using the order number as the account index and a fixed change/index of
0)", so it is modelled as the pair of its two `u32` arguments. -/
def derivationPath_p2wpkh (account index : Nat) : Nat × Nat :=
  (account % 2 ^ 32, index % 2 ^ 32)

/-- One call to an external collaborator, as recorded in a run's trace. -/
inductive ExtCall where
  | getPubKey (path : Nat × Nat)
  | getUtxos (addr : String)
  | feeRate
  | signTx (path : Nat × Nat)
  | broadcast
deriving DecidableEq

/-- An unspent output as returned by the UTXO provider (`ic_cdk`'s `Utxo`:
outpoint, value, height). -/
structure Utxo where
  txid : List Nat
  vout : Nat
  value : Nat
  height : Nat
deriving DecidableEq

/-- The external collaborators of the canister, § 6 of the spec, as one
record of deterministic functions.  `sha256` / `hash160` are the hash
primitives used by address encoding; `addr_to_string` is the bech32
encoder (`Address::to_string`); `get_ecdsa_public_key` is the
key-derivation service (deterministic: same path, same key);
`bitcoin_get_utxos`, `get_fee_per_byte` and `bitcoin_send_transaction`
are the UTXO provider, fee oracle and broadcaster.

Modelled from the spec: `p2wpkh::build_transaction` and
`p2wpkh::sign_transaction` are repository code not under `src/`; per
spec §4.4 they are the transaction-builder/signer collaborators, modelled
as opaque functions `build_transaction` / `sign_transaction` producing
serialized transaction bytes, with `compute_txid` the canonical
transaction identifier function. -/
structure Env where
  network : Network
  sha256 : List Nat → List Nat
  hash160 : List Nat → List Nat
  addr_to_string : Addr → String
  get_ecdsa_public_key : Nat × Nat → List Nat
  bitcoin_get_utxos : String → Except String (List Utxo)
  get_fee_per_byte : Nat
  build_transaction : List Nat → Addr → List Utxo → Addr → Nat → Nat → List Nat
  sign_transaction : List Nat → Addr → List Nat → Nat × Nat → List Nat
  bitcoin_send_transaction : List Nat → Except String Unit
  compute_txid : List Nat → String

/-! ## `get_htlc_address` (htlc_orders.rs lines 100-144) -/

/-- Model of `get_htlc_address`.  Returns the call's result, the storage
after the call, and the list of external (suspending) calls issued. -/
def get_htlc_address (env : Env) (s : OrderStorage) (order_no : Nat) :
    Except String String × OrderStorage × List ExtCall :=
  if (mapGet order_no s.orders).isNone then
    (.error ("Order " ++ toString order_no ++ " does not exist"), s, [])
  else
    match (mapGet order_no s.orders).bind (fun order => order.htlc_address) with
    | some address => (.ok address, s, [])
    | none =>
      let derivation_path := derivationPath_p2wpkh (order_no % 2 ^ 32) 0
      let public_key := env.get_ecdsa_public_key derivation_path
      match CompressedPublicKey.from_slice public_key with
      | .error e =>
        (.error ("Failed to create public key: " ++ e), s, [.getPubKey derivation_path])
      | .ok pk =>
        let address := env.addr_to_string (Address.p2wpkh env.hash160 pk env.network)
        (.ok address,
          ⟨mapSetHtlcAddress order_no address s.orders, s.next_order_no⟩,
          [.getPubKey derivation_path])

/-! ## `generate_p2wsh_htlc_address` (htlc_orders.rs lines 190-206) -/

/-- Model of `generate_p2wsh_htlc_address`. -/
def generate_p2wsh_htlc_address (sha256f : List Nat → List Nat)
    (payment_hash initiator_pubkey responder_pubkey : String) (timelock : Nat)
    (network : Network) : Except String Addr :=
  match generate_p2wsh_htlc_script payment_hash initiator_pubkey responder_pubkey
      timelock with
  | .error e => .error e
  | .ok script_buf => .ok (Address.p2wsh sha256f script_buf network)

/-! ## `withdraw_from_order` (htlc_orders.rs lines 211-299) -/

/-- Model of `withdraw_from_order`.  The call never mutates the order
store; the result is paired with the trace of external calls issued, in
order. -/
def withdraw_from_order (env : Env) (s : OrderStorage) (order_no : Nat)
    (responder_pubkey : String) (amount_in_satoshi : Nat) :
    Except String String × List ExtCall :=
  if amount_in_satoshi = 0 then
    (.error "Amount must be greater than 0", [])
  else
    match mapGet order_no s.orders with
    | none => (.error ("Order " ++ toString order_no ++ " does not exist"), [])
    | some order =>
      match PublicKey.from_str responder_pubkey with
      | .error _ => (.error "Invalid responder public key", [])
      | .ok _ =>
        match generate_p2wsh_htlc_address env.sha256 order.secret_hash
            order.initiator_pubkey responder_pubkey order.time_lock env.network with
        | .error e => (.error e, [])
        | .ok htlc_address =>
          let derivation_path := derivationPath_p2wpkh (order_no % 2 ^ 32) 0
          let own_public_key_bytes := env.get_ecdsa_public_key derivation_path
          match CompressedPublicKey.from_slice own_public_key_bytes with
          | .error e =>
            (.error ("Failed to create public key: " ++ e), [.getPubKey derivation_path])
          | .ok own_compressed_public_key =>
            match PublicKey.from_slice own_public_key_bytes with
            | .error e =>
              (.error ("Failed to create public key: " ++ e), [.getPubKey derivation_path])
            | .ok own_public_key =>
              let own_address :=
                Address.p2wpkh env.hash160 own_compressed_public_key env.network
              let own_address_str := env.addr_to_string own_address
              match env.bitcoin_get_utxos own_address_str with
              | .error e =>
                (.error ("Failed to get UTXOs: " ++ e),
                  [.getPubKey derivation_path, .getUtxos own_address_str])
              | .ok own_utxos =>
                if own_utxos.isEmpty then
                  (.error "No UTXOs available for this order",
                    [.getPubKey derivation_path, .getUtxos own_address_str])
                else
                  let fee_per_byte := env.get_fee_per_byte
                  let transaction := env.build_transaction own_public_key own_address
                    own_utxos htlc_address amount_in_satoshi fee_per_byte
                  let signed_transaction := env.sign_transaction own_public_key
                    own_address transaction derivation_path
                  match env.bitcoin_send_transaction signed_transaction with
                  | .error e =>
                    (.error ("Failed to send transaction: " ++ e),
                      [.getPubKey derivation_path, .getUtxos own_address_str,
                        .feeRate, .signTx derivation_path, .broadcast])
                  | .ok _ =>
                    (.ok (env.compute_txid signed_transaction),
                      [.getPubKey derivation_path, .getUtxos own_address_str,
                        .feeRate, .signTx derivation_path, .broadcast])

/-! ## Script structure (claims C1, C2, C7) -/

/-- Shape of every successfully generated HTLC script: hex decode, both key
parses, the length bound of the push buffer, and the exact byte layout. -/
theorem generate_script_shape (ph ipk rpk : String) (t : Nat) (s : List Nat)
    (h : generate_p2wsh_htlc_script ph ipk rpk t = .ok s) :
    ∃ hash ik rk, hexDecode ph = some hash ∧ ¬hash.length > pushBytesLimit ∧
      PublicKey.from_str ipk = .ok ik ∧ PublicKey.from_str rpk = .ok rk ∧
      s = [OP_IF, OP_SHA256] ++ pushdataEnc hash ++ [OP_EQUALVERIFY]
          ++ pushdataEnc rk ++ [OP_CHECKSIG, OP_ELSE] ++ pushIntEnc (i64OfU64 t)
          ++ [OP_CSV, OP_DROP] ++ pushdataEnc ik ++ [OP_CHECKSIG, OP_ENDIF] := by
  unfold generate_p2wsh_htlc_script at h
  cases hh : hexDecode ph with
  | none => rw [hh] at h; exact Except.noConfusion h
  | some hb =>
    rw [hh] at h
    simp only at h
    by_cases hlen : hb.length > pushBytesLimit
    · rw [if_pos hlen] at h; exact Except.noConfusion h
    · rw [if_neg hlen] at h
      cases hi : PublicKey.from_str ipk with
      | error e => rw [hi] at h; exact Except.noConfusion h
      | ok ik =>
        rw [hi] at h
        simp only at h
        cases hr : PublicKey.from_str rpk with
        | error e => rw [hr] at h; exact Except.noConfusion h
        | ok rk =>
          rw [hr] at h
          simp only at h
          injection h with hs
          refine ⟨hb, ik, rk, rfl, hlen, rfl, rfl, ?_⟩
          rw [← hs]
          simp [push_opcode, push_slice, push_key, push_int]

/-- C1: whenever `generate_p2wsh_htlc_script` succeeds, the produced script
is the two-branch conditional `OP_IF OP_SHA256 <hash> OP_EQUALVERIFY
<responder key> OP_CHECKSIG OP_ELSE <time_lock> OP_CSV OP_DROP
<initiator key> OP_CHECKSIG OP_ENDIF` (the time lock pushed through the
`u64 as i64` cast of the source). -/
theorem htlc_script_two_branch_structure (ph ipk rpk : String) (t : Nat) (s : List Nat)
    (h : generate_p2wsh_htlc_script ph ipk rpk t = .ok s) :
    ∃ hash ik rk, hexDecode ph = some hash ∧
      PublicKey.from_str ipk = .ok ik ∧ PublicKey.from_str rpk = .ok rk ∧
      s = [OP_IF, OP_SHA256] ++ pushdataEnc hash ++ [OP_EQUALVERIFY]
          ++ pushdataEnc rk ++ [OP_CHECKSIG, OP_ELSE] ++ pushIntEnc (i64OfU64 t)
          ++ [OP_CSV, OP_DROP] ++ pushdataEnc ik ++ [OP_CHECKSIG, OP_ENDIF] := by
  obtain ⟨hash, ik, rk, h1, -, h2, h3, h4⟩ := generate_script_shape ph ipk rpk t s h
  exact ⟨hash, ik, rk, h1, h2, h3, h4⟩

theorem htlc_script_two_branch_structure_witness :
    ∃ hash ik rk, hexDecode "ab" = some hash ∧
      PublicKey.from_str gUncompressedHex = .ok ik ∧
      PublicKey.from_str g2UncompressedHex = .ok rk ∧
      (generate_p2wsh_htlc_script "ab" gUncompressedHex g2UncompressedHex 5).toOption.getD []
        = [OP_IF, OP_SHA256] ++ pushdataEnc hash ++ [OP_EQUALVERIFY]
          ++ pushdataEnc rk ++ [OP_CHECKSIG, OP_ELSE] ++ pushIntEnc (i64OfU64 5)
          ++ [OP_CSV, OP_DROP] ++ pushdataEnc ik ++ [OP_CHECKSIG, OP_ENDIF] :=
  htlc_script_two_branch_structure "ab" gUncompressedHex g2UncompressedHex 5
    ((generate_p2wsh_htlc_script "ab" gUncompressedHex g2UncompressedHex 5).toOption.getD [])
    (by decide)

/-- C2 counterexample: `"ab"` is well-formed hex decoding to a single byte
(not 32), yet `generate_p2wsh_htlc_script` does not reject it — no length
check is performed on the decoded payment hash. -/
theorem hash_length_not_checked :
    hexDecode "ab" = some [0xab]
    ∧ ([0xab] : List Nat).length ≠ 32
    ∧ (generate_p2wsh_htlc_script "ab" gUncompressedHex g2UncompressedHex 5).toOption.isSome
        = true :=
  ⟨by decide, by decide, by decide⟩

/-- C2 (amended): `generate_p2wsh_htlc_script` returns the hash-decoding
error exactly when `secret_hash` is not valid hex; the decoded byte length
is never compared against 32. -/
theorem hash_decode_error_iff (ph ipk rpk : String) (t : Nat) :
    generate_p2wsh_htlc_script ph ipk rpk t = .error "Failed to decode payment hash"
      ↔ hexDecode ph = none := by
  constructor
  · intro h
    cases hh : hexDecode ph with
    | none => rfl
    | some hb =>
      exfalso
      unfold generate_p2wsh_htlc_script at h
      rw [hh] at h
      simp only at h
      by_cases hlen : hb.length > pushBytesLimit
      · rw [if_pos hlen] at h
        simp at h
      · rw [if_neg hlen] at h
        cases hi : PublicKey.from_str ipk with
        | error e => rw [hi] at h; simp at h
        | ok ik =>
          rw [hi] at h
          cases hr : PublicKey.from_str rpk with
          | error e => rw [hr] at h; simp at h
          | ok rk => rw [hr] at h; exact Except.noConfusion h
  · intro h
    unfold generate_p2wsh_htlc_script
    rw [h]

/-! ## Withdrawal precondition order (claim C3) -/

/-- A concrete environment used to witness the theorems: identity hashes,
the compressed generator point as the derived public key, no UTXOs. -/
def envW : Env :=
  ⟨.regtest, fun l => l, fun l => l,
    fun a => match a.program with
      | .p2wpkh h => "wpkh:" ++ toString h
      | .p2wsh h => "wsh:" ++ toString h,
    fun _ => (hexDecode gCompressedHex).getD [],
    fun _ => .ok [], 10, fun _ _ _ _ _ _ => [], fun _ _ _ _ => [],
    fun _ => .ok (), fun _ => "txid"⟩

/-- A concrete one-order store used to witness the theorems. -/
def storeW : OrderStorage := ⟨[(1, ⟨gUncompressedHex, 5, "ab", none⟩)], 2⟩

/-- C3: `withdraw_from_order` checks its preconditions in the fixed order
amount, order existence, responder key, each failing before any external
call (empty trace), an earlier failure masking a later one. -/
theorem withdraw_precondition_order (env : Env) (s : OrderStorage) (n : Nat)
    (rpk : String) (amt : Nat) :
    (amt = 0 → withdraw_from_order env s n rpk amt
        = (.error "Amount must be greater than 0", []))
    ∧ (amt ≠ 0 → mapGet n s.orders = none → withdraw_from_order env s n rpk amt
        = (.error ("Order " ++ toString n ++ " does not exist"), []))
    ∧ (∀ o e, amt ≠ 0 → mapGet n s.orders = some o →
        PublicKey.from_str rpk = .error e →
        withdraw_from_order env s n rpk amt
          = (.error "Invalid responder public key", [])) := by
  refine ⟨?_, ?_, ?_⟩
  · intro h
    rw [withdraw_from_order, if_pos h]
  · intro h1 h2
    rw [withdraw_from_order, if_neg h1, h2]
  · intro o e h1 h2 h3
    rw [withdraw_from_order, if_neg h1, h2, h3]

theorem withdraw_precondition_order_witness :
    withdraw_from_order envW storeW 1 g2UncompressedHex 0
        = (.error "Amount must be greater than 0", [])
    ∧ withdraw_from_order envW storeW 99 g2UncompressedHex 5
        = (.error ("Order " ++ toString 99 ++ " does not exist"), [])
    ∧ withdraw_from_order envW storeW 1 "zz" 5
        = (.error "Invalid responder public key", []) :=
  ⟨(withdraw_precondition_order envW storeW 1 g2UncompressedHex 0).1 rfl,
    (withdraw_precondition_order envW storeW 99 g2UncompressedHex 5).2.1
      (by decide) (by decide),
    (withdraw_precondition_order envW storeW 1 "zz" 5).2.2
      ⟨gUncompressedHex, 5, "ab", none⟩ "invalid public key length"
      (by decide) (by decide) (by decide)⟩

/-! ## Idempotence of address derivation (claim C5) -/

/-- A concrete store whose order 1 already carries a cached address. -/
def storeC : OrderStorage := ⟨[(1, ⟨gUncompressedHex, 5, "ab", some "addr1"⟩)], 2⟩

/-- C5: if an order's `htlc_address` is already set, `get_htlc_address`
returns it with the store unchanged and an empty external-call trace; and
after any successful call, a second call returns the same address and
issues no external request. -/
theorem get_htlc_address_idempotent (env : Env) (s : OrderStorage) (n : Nat) :
    (∀ o a, mapGet n s.orders = some o → o.htlc_address = some a →
      get_htlc_address env s n = (.ok a, s, []))
    ∧ (∀ a s1 tr, get_htlc_address env s n = (.ok a, s1, tr) →
      get_htlc_address env s1 n = (.ok a, s1, [])) := by
  constructor
  · intro o a h1 h2
    simp [get_htlc_address, h1, h2]
  · intro a s1 tr h
    cases h1 : mapGet n s.orders with
    | none => simp [get_htlc_address, h1] at h
    | some o =>
      cases h2 : o.htlc_address with
      | some addr =>
        have he : get_htlc_address env s n = (.ok addr, s, []) := by
          simp [get_htlc_address, h1, h2]
        rw [he] at h
        simp only [Prod.mk.injEq, Except.ok.injEq] at h
        obtain ⟨ha, hs, -⟩ := h
        subst ha
        subst hs
        exact he
      | none =>
        cases h3 : CompressedPublicKey.from_slice
            (env.get_ecdsa_public_key (derivationPath_p2wpkh (n % 2 ^ 32) 0)) with
        | error e =>
          have he : get_htlc_address env s n
              = (.error ("Failed to create public key: " ++ e), s,
                 [.getPubKey (derivationPath_p2wpkh (n % 2 ^ 32) 0)]) := by
            simp [get_htlc_address, h1, h2, h3, -Nat.reducePow]
          rw [he] at h
          simp at h
        | ok pk =>
          have he : get_htlc_address env s n
              = (.ok (env.addr_to_string (Address.p2wpkh env.hash160 pk env.network)),
                 ⟨mapSetHtlcAddress n
                    (env.addr_to_string (Address.p2wpkh env.hash160 pk env.network))
                    s.orders, s.next_order_no⟩,
                 [.getPubKey (derivationPath_p2wpkh (n % 2 ^ 32) 0)]) := by
            simp [get_htlc_address, h1, h2, h3, -Nat.reducePow]
          rw [he] at h
          simp only [Prod.mk.injEq, Except.ok.injEq] at h
          obtain ⟨ha, hs, -⟩ := h
          subst ha
          subst hs
          have hlook := mapGet_set_self n
            (env.addr_to_string (Address.p2wpkh env.hash160 pk env.network)) s.orders o h1
          simp [get_htlc_address, hlook]

theorem get_htlc_address_idempotent_witness :
    get_htlc_address envW storeC 1 = (.ok "addr1", storeC, ([] : List ExtCall))
    ∧ get_htlc_address envW (get_htlc_address envW storeW 1).2.1 1
        = (.ok ((get_htlc_address envW storeW 1).1.toOption.getD ""),
           (get_htlc_address envW storeW 1).2.1, ([] : List ExtCall)) :=
  ⟨(get_htlc_address_idempotent envW storeC 1).1
      ⟨gUncompressedHex, 5, "ab", some "addr1"⟩ "addr1" (by decide) rfl,
    (get_htlc_address_idempotent envW storeW 1).2
      ((get_htlc_address envW storeW 1).1.toOption.getD "")
      (get_htlc_address envW storeW 1).2.1
      (get_htlc_address envW storeW 1).2.2
      (by decide)⟩

/-! ## Escrow-address uniqueness per responder (claim C7) -/

/-- Every key accepted by `PublicKey::from_slice` serializes to 33 or 65
bytes. -/
theorem from_slice_key_length (b k : List Nat) (h : PublicKey.from_slice b = .ok k) :
    k.length = 33 ∨ k.length = 65 := by
  unfold PublicKey.from_slice at h
  by_cases h33 : b.length = 33
  · cases b with
    | nil => exact absurd h33 (by decide)
    | cons pfx xs =>
      rw [if_pos h33] at h
      simp only at h
      by_cases hv : validCompressed pfx (beNat xs) = true
      · rw [if_pos hv] at h
        injection h with hk
        left; rw [← hk]; exact h33
      · rw [if_neg hv] at h; exact Except.noConfusion h
  · by_cases h65 : b.length = 65
    · cases b with
      | nil => exact absurd h65 (by decide)
      | cons pfx rest =>
        rw [if_neg h33, if_pos h65] at h
        simp only at h
        have hr64 : rest.length = 64 := by simpa using h65
        by_cases h4 : (pfx == 4) = true
        · rw [if_pos h4] at h
          by_cases hc : onCurve (beNat (rest.take 32)) (beNat (rest.drop 32)) = true
          · rw [if_pos hc] at h
            injection h with hk
            right; rw [← hk]; exact h65
          · rw [if_neg hc] at h; exact Except.noConfusion h
        · rw [if_neg h4] at h
          by_cases h67 : (pfx == 6 || pfx == 7) = true
          · rw [if_pos h67] at h
            by_cases hcc : (onCurve (beNat (rest.take 32)) (beNat (rest.drop 32))
                && (beNat (rest.drop 32) % 2 == if (pfx == 7) = true then 1 else 0)) = true
            · rw [if_pos hcc] at h
              injection h with hk
              right; rw [← hk]; simp [hr64]
            · rw [if_neg hcc] at h; exact Except.noConfusion h
          · rw [if_neg h67] at h; exact Except.noConfusion h
    · rw [if_neg h33, if_neg h65] at h; exact Except.noConfusion h

/-- Every key accepted by `PublicKey::from_str` serializes to 33 or 65
bytes. -/
theorem from_str_key_length (s : String) (k : List Nat)
    (h : PublicKey.from_str s = .ok k) : k.length = 33 ∨ k.length = 65 := by
  unfold PublicKey.from_str at h
  by_cases hl : s.length = 66 ∨ s.length = 130
  · rw [if_pos hl] at h
    cases hd : hexDecode s with
    | none => rw [hd] at h; exact Except.noConfusion h
    | some b =>
      rw [hd] at h
      simp only at h
      exact from_slice_key_length b k h
  · rw [if_neg hl] at h; exact Except.noConfusion h

/-- Default address used to state concrete instances. -/
def addrDefault : Addr := ⟨.regtest, .p2wsh []⟩

/-- C7: with the script hash injective (SHA-256 modelled collision-free),
two responder keys with different serializations yield different escrow
addresses, everything else fixed. -/
theorem p2wsh_address_responder_injective (sha256f : List Nat → List Nat)
    (hinj : Function.Injective sha256f) (ph ipk : String) (t : Nat) (net : Network)
    (rpk rpk' : String) (k k' : List Nat)
    (hk : PublicKey.from_str rpk = .ok k) (hk' : PublicKey.from_str rpk' = .ok k')
    (hne : k ≠ k') (a a' : Addr)
    (ha : generate_p2wsh_htlc_address sha256f ph ipk rpk t net = .ok a)
    (ha' : generate_p2wsh_htlc_address sha256f ph ipk rpk' t net = .ok a') :
    a ≠ a' := by
  unfold generate_p2wsh_htlc_address at ha ha'
  cases hs : generate_p2wsh_htlc_script ph ipk rpk t with
  | error e => rw [hs] at ha; exact Except.noConfusion ha
  | ok s =>
    rw [hs] at ha
    simp only at ha
    cases hs' : generate_p2wsh_htlc_script ph ipk rpk' t with
    | error e => rw [hs'] at ha'; exact Except.noConfusion ha'
    | ok s' =>
      rw [hs'] at ha'
      simp only at ha'
      injection ha with haa
      injection ha' with haa'
      obtain ⟨hash, ik, rk, hd, -, hi, hr, hsh⟩ := generate_script_shape ph ipk rpk t s hs
      obtain ⟨hash2, ik2, rk2, hd2, -, hi2, hr2, hsh2⟩ :=
        generate_script_shape ph ipk rpk' t s' hs'
      rw [hd] at hd2
      injection hd2 with hhash
      rw [hi] at hi2
      injection hi2 with hik
      rw [hk] at hr
      injection hr with hrk
      rw [hk'] at hr2
      injection hr2 with hrk2
      subst hhash
      subst hik
      subst hrk
      subst hrk2
      intro hEq
      apply hne
      have hprog : sha256f s = sha256f s' := by
        rw [← haa, ← haa'] at hEq
        simpa [Address.p2wsh, Addr.mk.injEq] using hEq
      have hss : s = s' := hinj hprog
      have hkl := from_str_key_length rpk k hk
      have hkl' := from_str_key_length rpk' k' hk'
      have hke : pushdataEnc k = k.length :: k := by
        unfold pushdataEnc
        rw [if_pos (by rcases hkl with h | h <;> omega)]
      have hke' : pushdataEnc k' = k'.length :: k' := by
        unfold pushdataEnc
        rw [if_pos (by rcases hkl' with h | h <;> omega)]
      rw [hsh, hsh2, hke, hke'] at hss
      simp only [List.append_assoc, List.cons_append, List.nil_append,
        List.cons.injEq, true_and] at hss
      have hss2 := List.append_cancel_left hss
      simp only [List.cons.injEq, true_and] at hss2
      obtain ⟨hlen, hss3⟩ := hss2
      exact (List.append_inj hss3 hlen).1

theorem p2wsh_address_responder_injective_witness :
    (generate_p2wsh_htlc_address id "ab" gUncompressedHex g2UncompressedHex 5
        Network.regtest).toOption.getD addrDefault
      ≠ (generate_p2wsh_htlc_address id "ab" gUncompressedHex gUncompressedHex 5
        Network.regtest).toOption.getD addrDefault :=
  p2wsh_address_responder_injective id Function.injective_id "ab" gUncompressedHex 5
    Network.regtest g2UncompressedHex gUncompressedHex
    ((PublicKey.from_str g2UncompressedHex).toOption.getD [])
    ((PublicKey.from_str gUncompressedHex).toOption.getD [])
    (by decide) (by decide) (by decide)
    ((generate_p2wsh_htlc_address id "ab" gUncompressedHex g2UncompressedHex 5
        Network.regtest).toOption.getD addrDefault)
    ((generate_p2wsh_htlc_address id "ab" gUncompressedHex gUncompressedHex 5
        Network.regtest).toOption.getD addrDefault)
    (by decide) (by decide)

/-! ## NoFunds early return (claim C8) -/

/-- C8: once the precondition checks pass and the UTXO provider returns an
empty list for the order's funding address, `withdraw_from_order` fails
with the NoFunds error and its external-call trace is exactly the key
request and the UTXO request — no fee-rate request, no signing and no
broadcast. -/
theorem withdraw_no_funds (env : Env) (s : OrderStorage) (n : Nat) (rpk : String)
    (amt : Nat) (order : HtlcDetail) (k ck pk : List Nat) (ha : Addr)
    (h0 : amt ≠ 0)
    (h1 : mapGet n s.orders = some order)
    (h2 : PublicKey.from_str rpk = .ok k)
    (h3 : generate_p2wsh_htlc_address env.sha256 order.secret_hash
        order.initiator_pubkey rpk order.time_lock env.network = .ok ha)
    (h4 : CompressedPublicKey.from_slice
        (env.get_ecdsa_public_key (derivationPath_p2wpkh (n % 2 ^ 32) 0)) = .ok ck)
    (h5 : PublicKey.from_slice
        (env.get_ecdsa_public_key (derivationPath_p2wpkh (n % 2 ^ 32) 0)) = .ok pk)
    (h6 : env.bitcoin_get_utxos
        (env.addr_to_string (Address.p2wpkh env.hash160 ck env.network)) = .ok []) :
    withdraw_from_order env s n rpk amt
      = (.error "No UTXOs available for this order",
         [.getPubKey (derivationPath_p2wpkh (n % 2 ^ 32) 0),
          .getUtxos (env.addr_to_string (Address.p2wpkh env.hash160 ck env.network))]) := by
  simp [withdraw_from_order, h0, h1, h2, h3, h4, h5, h6, -Nat.reducePow]

theorem withdraw_no_funds_witness :
    withdraw_from_order envW storeW 1 g2UncompressedHex 7
      = (.error "No UTXOs available for this order",
         [.getPubKey (derivationPath_p2wpkh (1 % 2 ^ 32) 0),
          .getUtxos (envW.addr_to_string (Address.p2wpkh envW.hash160
            ((hexDecode gCompressedHex).getD []) envW.network))]) :=
  withdraw_no_funds envW storeW 1 g2UncompressedHex 7
    ⟨gUncompressedHex, 5, "ab", none⟩
    ((PublicKey.from_str g2UncompressedHex).toOption.getD [])
    ((hexDecode gCompressedHex).getD [])
    ((hexDecode gCompressedHex).getD [])
    ((generate_p2wsh_htlc_address envW.sha256 "ab" gUncompressedHex
        g2UncompressedHex 5 envW.network).toOption.getD addrDefault)
    (by decide) (by decide) (by decide) (by decide) (by decide) (by decide) (by decide)

/-! ## Derivation truncated to `u32` (claim C10) -/

/-- C10: both `get_htlc_address` and `withdraw_from_order` key the funding
derivation on `order_no as u32`, so any two order numbers congruent modulo
`2 ^ 32` give the identical derivation path; consequently
`get_htlc_address` on uncached orders returns the identical funding
address, and `withdraw_from_order` behaves identically (same result, same
external-call trace) for the two order numbers when both map to the same
record. -/
theorem funding_path_u32_truncation (env : Env) (n n' : Nat)
    (hmod : n % 2 ^ 32 = n' % 2 ^ 32) :
    derivationPath_p2wpkh (n % 2 ^ 32) 0 = derivationPath_p2wpkh (n' % 2 ^ 32) 0
    ∧ (∀ s s' o o', mapGet n s.orders = some o → o.htlc_address = none →
        mapGet n' s'.orders = some o' → o'.htlc_address = none →
        (get_htlc_address env s n).1 = (get_htlc_address env s' n').1)
    ∧ (∀ s d rpk amt, mapGet n s.orders = some d → mapGet n' s.orders = some d →
        withdraw_from_order env s n rpk amt
          = withdraw_from_order env s n' rpk amt) := by
  have hpath : derivationPath_p2wpkh (n % 2 ^ 32) 0
      = derivationPath_p2wpkh (n' % 2 ^ 32) 0 := by rw [hmod]
  refine ⟨hpath, ?_, ?_⟩
  · intro s s' o o' h1 h2 h1' h2'
    cases hc : CompressedPublicKey.from_slice
        (env.get_ecdsa_public_key (derivationPath_p2wpkh (n' % 2 ^ 32) 0)) with
    | error e =>
      have hcL : CompressedPublicKey.from_slice
          (env.get_ecdsa_public_key (derivationPath_p2wpkh (n % 2 ^ 32) 0))
          = .error e := by rw [hpath]; exact hc
      simp [get_htlc_address, h1, h2, h1', h2', hc, hcL, -Nat.reducePow]
    | ok pk =>
      have hcL : CompressedPublicKey.from_slice
          (env.get_ecdsa_public_key (derivationPath_p2wpkh (n % 2 ^ 32) 0))
          = .ok pk := by rw [hpath]; exact hc
      simp [get_htlc_address, h1, h2, h1', h2', hc, hcL, -Nat.reducePow]
  · intro s d rpk amt h1 h2
    by_cases h0 : amt = 0
    · simp [withdraw_from_order, h0]
    · simp [withdraw_from_order, h0, h1, h2, hmod, -Nat.reducePow]

/-- A concrete store with the same record under order numbers `7` and
`7 + 2 ^ 32`, used to witness the truncation theorem. -/
def storeX : OrderStorage :=
  ⟨[(7, ⟨gUncompressedHex, 5, "ab", none⟩),
    (7 + 2 ^ 32, ⟨gUncompressedHex, 5, "ab", none⟩)], 8⟩

theorem funding_path_u32_truncation_witness :
    derivationPath_p2wpkh (7 % 2 ^ 32) 0
        = derivationPath_p2wpkh ((7 + 2 ^ 32) % 2 ^ 32) 0
    ∧ (get_htlc_address envW storeX 7).1
        = (get_htlc_address envW storeX (7 + 2 ^ 32)).1
    ∧ withdraw_from_order envW storeX 7 g2UncompressedHex 9
        = withdraw_from_order envW storeX (7 + 2 ^ 32) g2UncompressedHex 9 :=
  ⟨(funding_path_u32_truncation envW 7 (7 + 2 ^ 32) (by decide)).1,
    (funding_path_u32_truncation envW 7 (7 + 2 ^ 32) (by decide)).2.1
      storeX storeX ⟨gUncompressedHex, 5, "ab", none⟩ ⟨gUncompressedHex, 5, "ab", none⟩
      (by decide) rfl (by decide) rfl,
    (funding_path_u32_truncation envW 7 (7 + 2 ^ 32) (by decide)).2.2
      storeX ⟨gUncompressedHex, 5, "ab", none⟩ g2UncompressedHex 9
      (by decide) (by decide)⟩

/-! ## Store invariants under interleaved operations (claim C9)

`withdraw_from_order` and the query operations never mutate the store (the
model's types make this evident: they return no store).  The only mutating
code is `create_order` and the write-back segment of `get_htlc_address`
after its suspension point.  A history of the exposed operations, with
`get_htlc_address` split at the suspension point so that arbitrary
interleavings are covered, is therefore a list of the atomic segments
below. -/

/-- The deterministic funding-address string the write-back segment of
`get_htlc_address` stores for order `n` (`none` when the derived key does
not parse, in which case the call errors before writing). -/
def derivedAddrString? (env : Env) (n : Nat) : Option String :=
  match CompressedPublicKey.from_slice
      (env.get_ecdsa_public_key (derivationPath_p2wpkh (n % 2 ^ 32) 0)) with
  | .ok pk => some (env.addr_to_string (Address.p2wpkh env.hash160 pk env.network))
  | .error _ => none

/-- Atomic segments of the exposed operations.  `get_htlc_address` is
split into its pre-suspension check segment and its write-back segment. -/
inductive Op where
  | create (p : String) (t : Nat) (h : String)
  | getOrderOp (n : Nat)
  | getAllOrdersOp
  | getNextOrderNoOp
  | htlcAddressCheck (n : Nat)
  | htlcAddressWrite (n : Nat)
  | withdrawOp (n : Nat) (rpk : String) (amt : Nat)

/-- Effect of one segment on the store: only `create` and the address
write-back mutate it. -/
def applyOp (env : Env) (s : OrderStorage) : Op → OrderStorage
  | .create p t h => (create_order s p t h).2
  | .htlcAddressWrite n =>
    match derivedAddrString? env n with
    | some a => ⟨mapSetHtlcAddress n a s.orders, s.next_order_no⟩
    | none => s
  | _ => s

/-- Run a history of segments left to right. -/
def runOps (env : Env) (ops : List Op) (s : OrderStorage) : OrderStorage :=
  ops.foldl (applyOp env) s

/-- Number of `create` segments in a history. -/
def createCount : List Op → Nat
  | [] => 0
  | .create _ _ _ :: rest => createCount rest + 1
  | _ :: rest => createCount rest

/-- The store after a real `get_htlc_address` call is either unchanged or
exactly the effect of the write-back segment, so `Op` histories cover the
sequential calls as well as their interleavings. -/
theorem get_htlc_address_state_cases (env : Env) (s : OrderStorage) (n : Nat) :
    (get_htlc_address env s n).2.1 = s
    ∨ (get_htlc_address env s n).2.1 = applyOp env s (.htlcAddressWrite n) := by
  cases h1 : mapGet n s.orders with
  | none => left; simp [get_htlc_address, h1]
  | some o =>
    cases h2 : o.htlc_address with
    | some a => left; simp [get_htlc_address, h1, h2]
    | none =>
      cases h3 : CompressedPublicKey.from_slice
          (env.get_ecdsa_public_key (derivationPath_p2wpkh (n % 2 ^ 32) 0)) with
      | error e => left; simp [get_htlc_address, h1, h2, h3, -Nat.reducePow]
      | ok pk =>
        right
        simp [get_htlc_address, applyOp, derivedAddrString?, h1, h2, h3, -Nat.reducePow]

/-- `mapSetHtlcAddress` does not create entries. -/
theorem mapGet_set_none (k : Nat) (a : String) (m : List (Nat × HtlcDetail))
    (h : mapGet k m = none) : mapGet k (mapSetHtlcAddress k a m) = none := by
  induction m with
  | nil => rfl
  | cons kv rest ih =>
    by_cases hk : kv.1 = k
    · have hpos : (kv.1 == k) = true := by simp [hk]
      simp only [mapGet, List.find?_cons, hpos] at h
      exact Option.noConfusion h
    · have hneg : (kv.1 == k) = false := by simp [hk]
      have h' : mapGet k rest = none := by
        simpa only [mapGet, List.find?_cons, hneg] using h
      simp only [mapSetHtlcAddress, List.map_cons, if_neg hk, mapGet,
        List.find?_cons, hneg]
      simpa [mapGet, mapSetHtlcAddress] using ih h'

/-- How one order record may change across segments: identity fields are
fixed and a set address stays set to the same value. -/
def OrderEvolves (o o' : HtlcDetail) : Prop :=
  o'.initiator_pubkey = o.initiator_pubkey ∧ o'.time_lock = o.time_lock ∧
  o'.secret_hash = o.secret_hash ∧
  (∀ a, o.htlc_address = some a → o'.htlc_address = some a)

theorem OrderEvolves.refl (o : HtlcDetail) : OrderEvolves o o :=
  ⟨rfl, rfl, rfl, fun _ h => h⟩

theorem OrderEvolves.trans {o o' o'' : HtlcDetail}
    (h1 : OrderEvolves o o') (h2 : OrderEvolves o' o'') : OrderEvolves o o'' :=
  ⟨h2.1.trans h1.1, h2.2.1.trans h1.2.1, h2.2.2.1.trans h1.2.2.1,
    fun a ha => h2.2.2.2 a (h1.2.2.2 a ha)⟩

/-- Reachability invariant of the store: the counter is positive, every key
is below the counter, and every cached address is the deterministic
derived address of its order (the only value any write-back stores). -/
structure StoreInv (env : Env) (s : OrderStorage) : Prop where
  pos : 1 ≤ s.next_order_no
  bounded : ∀ k o, mapGet k s.orders = some o → 1 ≤ k ∧ k < s.next_order_no
  good : ∀ k o a, mapGet k s.orders = some o → o.htlc_address = some a →
    derivedAddrString? env k = some a

theorem storeInv_initial (env : Env) : StoreInv env OrderStorage.new :=
  ⟨le_refl 1,
    fun k o h => by simp [OrderStorage.new, mapGet] at h,
    fun k o a h _ => by simp [OrderStorage.new, mapGet] at h⟩

/-- A `create` segment below the wrap bound preserves the invariant,
advances the counter by one, and leaves every existing record unchanged. -/
theorem step_create (env : Env) (s : OrderStorage) (p : String) (t : Nat) (h : String)
    (hInv : StoreInv env s) (hnw : s.next_order_no + 1 < 2 ^ 64) :
    StoreInv env (applyOp env s (.create p t h))
    ∧ (applyOp env s (.create p t h)).next_order_no = s.next_order_no + 1
    ∧ ∀ k o, mapGet k s.orders = some o →
        mapGet k (applyOp env s (.create p t h)).orders = some o := by
  have hmod : (s.next_order_no + 1) % 2 ^ 64 = s.next_order_no + 1 :=
    Nat.mod_eq_of_lt hnw
  have ho : (applyOp env s (.create p t h)).orders
      = mapInsert s.next_order_no ⟨p, t, h, none⟩ s.orders := by
    simp [applyOp, create_order]
  have hn : (applyOp env s (.create p t h)).next_order_no = s.next_order_no + 1 := by
    simp [applyOp, create_order, hmod, -Nat.reducePow]
  refine ⟨?_, hn, ?_⟩
  · refine ⟨?_, ?_, ?_⟩
    · rw [hn]; omega
    · intro k o hk
      rw [ho] at hk
      rw [hn]
      by_cases hks : k = s.next_order_no
      · subst hks
        have := hInv.pos
        omega
      · rw [mapGet_insert_ne _ _ _ _ hks] at hk
        have := hInv.bounded k o hk
        omega
    · intro k o a hk ha
      rw [ho] at hk
      by_cases hks : k = s.next_order_no
      · subst hks
        rw [mapGet_insert_self] at hk
        injection hk with hko
        rw [← hko] at ha
        exact Option.noConfusion ha
      · rw [mapGet_insert_ne _ _ _ _ hks] at hk
        exact hInv.good k o a hk ha
  · intro k o hk
    have hb := hInv.bounded k o hk
    have hks : k ≠ s.next_order_no := by omega
    rw [ho, mapGet_insert_ne _ _ _ _ hks]
    exact hk

/-- A write-back segment preserves the invariant, keeps the counter, and
evolves every record monotonically (a cached address is only ever
overwritten with the same derived value). -/
theorem step_write (env : Env) (s : OrderStorage) (n : Nat) (hInv : StoreInv env s) :
    StoreInv env (applyOp env s (.htlcAddressWrite n))
    ∧ (applyOp env s (.htlcAddressWrite n)).next_order_no = s.next_order_no
    ∧ ∀ k o, mapGet k s.orders = some o →
        ∃ o', mapGet k (applyOp env s (.htlcAddressWrite n)).orders = some o'
          ∧ OrderEvolves o o' := by
  cases hda : derivedAddrString? env n with
  | none =>
    have happly : applyOp env s (.htlcAddressWrite n) = s := by simp [applyOp, hda]
    rw [happly]
    exact ⟨hInv, rfl, fun k o h => ⟨o, h, OrderEvolves.refl o⟩⟩
  | some a =>
    have ho : (applyOp env s (.htlcAddressWrite n)).orders
        = mapSetHtlcAddress n a s.orders := by simp [applyOp, hda]
    have hn : (applyOp env s (.htlcAddressWrite n)).next_order_no
        = s.next_order_no := by simp [applyOp, hda]
    refine ⟨⟨by rw [hn]; exact hInv.pos, ?_, ?_⟩, hn, ?_⟩
    · intro k o hk
      rw [ho] at hk
      rw [hn]
      by_cases hkn : k = n
      · subst hkn
        cases horig : mapGet k s.orders with
        | none =>
          rw [mapGet_set_none k a s.orders horig] at hk
          exact Option.noConfusion hk
        | some o0 =>
          rw [mapGet_set_self k a s.orders o0 horig] at hk
          exact hInv.bounded k o0 horig
      · rw [mapGet_set_ne n k a s.orders hkn] at hk
        exact hInv.bounded k o hk
    · intro k o b hk hb
      rw [ho] at hk
      by_cases hkn : k = n
      · subst hkn
        cases horig : mapGet k s.orders with
        | none =>
          rw [mapGet_set_none k a s.orders horig] at hk
          exact Option.noConfusion hk
        | some o0 =>
          rw [mapGet_set_self k a s.orders o0 horig] at hk
          injection hk with hko
          rw [← hko] at hb
          simp only at hb
          injection hb with hab
          rw [← hab]
          exact hda
      · rw [mapGet_set_ne n k a s.orders hkn] at hk
        exact hInv.good k o b hk hb
    · intro k o hk
      by_cases hkn : k = n
      · subst hkn
        refine ⟨{ o with htlc_address := some a }, ?_, rfl, rfl, rfl, ?_⟩
        · rw [ho]
          exact mapGet_set_self k a s.orders o hk
        · intro b hb
          have hd := hInv.good k o b hk hb
          rw [hda] at hd
          injection hd with hab
          rw [hab]
      · exact ⟨o, by rw [ho, mapGet_set_ne n k a s.orders hkn]; exact hk,
          OrderEvolves.refl o⟩

/-- Running any history of segments from an invariant state below the wrap
bound preserves the invariant, advances the counter by exactly the number
of creates, and evolves every existing record monotonically. -/
theorem runOps_preserves (env : Env) (ops : List Op) (s : OrderStorage)
    (hInv : StoreInv env s) (hb : s.next_order_no + createCount ops < 2 ^ 64) :
    StoreInv env (runOps env ops s)
    ∧ (runOps env ops s).next_order_no = s.next_order_no + createCount ops
    ∧ ∀ k o, mapGet k s.orders = some o →
        ∃ o', mapGet k (runOps env ops s).orders = some o' ∧ OrderEvolves o o' := by
  induction ops generalizing s with
  | nil =>
    exact ⟨hInv, by simp [runOps, createCount],
      fun k o h => ⟨o, h, OrderEvolves.refl o⟩⟩
  | cons op rest ih =>
    cases op with
    | create p t h =>
      have hcc : createCount (Op.create p t h :: rest) = createCount rest + 1 := rfl
      rw [hcc] at hb
      have hnw : s.next_order_no + 1 < 2 ^ 64 := by omega
      obtain ⟨hInv', hnext', hpres'⟩ := step_create env s p t h hInv hnw
      obtain ⟨hI, hN, hP⟩ := ih (applyOp env s (.create p t h)) hInv'
        (by rw [hnext']; omega)
      refine ⟨hI, ?_, ?_⟩
      · have hrun : runOps env (Op.create p t h :: rest) s
            = runOps env rest (applyOp env s (.create p t h)) := rfl
        rw [hrun, hN, hnext', hcc]
        omega
      · intro k o hk
        exact hP k o (hpres' k o hk)
    | htlcAddressWrite n =>
      have hcc : createCount (Op.htlcAddressWrite n :: rest) = createCount rest := rfl
      rw [hcc] at hb
      obtain ⟨hInv', hnext', hpres'⟩ := step_write env s n hInv
      obtain ⟨hI, hN, hP⟩ := ih (applyOp env s (.htlcAddressWrite n)) hInv'
        (by rw [hnext']; omega)
      refine ⟨hI, ?_, ?_⟩
      · have hrun : runOps env (Op.htlcAddressWrite n :: rest) s
            = runOps env rest (applyOp env s (.htlcAddressWrite n)) := rfl
        rw [hrun, hN, hnext', hcc]
      · intro k o hk
        obtain ⟨o1, h1, hev1⟩ := hpres' k o hk
        obtain ⟨o2, h2, hev2⟩ := hP k o1 h1
        exact ⟨o2, h2, OrderEvolves.trans hev1 hev2⟩
    | getOrderOp n => exact ih s hInv hb
    | getAllOrdersOp => exact ih s hInv hb
    | getNextOrderNoOp => exact ih s hInv hb
    | htlcAddressCheck n => exact ih s hInv hb
    | withdrawOp n rpk amt => exact ih s hInv hb

/-- C9 (amended): in every history of exposed-operation segments from the
initial store containing at most `2 ^ 64 - 2` creates in total — covering
arbitrary interleavings of `get_htlc_address` at its suspension point — a
key once mapped stays mapped to the same order (identity fields
unchanged), and its `htlc_address`, once set, never changes. -/
theorem store_invariant_preserved (env : Env) (pre post : List Op)
    (hc : createCount pre + createCount post ≤ 2 ^ 64 - 2) (k : Nat) (o : HtlcDetail)
    (h : mapGet k (runOps env pre OrderStorage.new).orders = some o) :
    ∃ o', mapGet k (runOps env (pre ++ post) OrderStorage.new).orders = some o'
      ∧ o'.initiator_pubkey = o.initiator_pubkey
      ∧ o'.time_lock = o.time_lock
      ∧ o'.secret_hash = o.secret_hash
      ∧ (∀ a, o.htlc_address = some a → o'.htlc_address = some a) := by
  have hnew : OrderStorage.new.next_order_no = 1 := rfl
  obtain ⟨hInvPre, hnextPre, -⟩ :=
    runOps_preserves env pre OrderStorage.new (storeInv_initial env)
      (by rw [hnew]; omega)
  obtain ⟨-, -, hpres⟩ :=
    runOps_preserves env post (runOps env pre OrderStorage.new) hInvPre
      (by rw [hnextPre, hnew]; omega)
  obtain ⟨o', ho', hev⟩ := hpres k o h
  have hsplit : runOps env (pre ++ post) OrderStorage.new
      = runOps env post (runOps env pre OrderStorage.new) := by
    simp [runOps, List.foldl_append]
  rw [hsplit]
  exact ⟨o', ho', hev.1, hev.2.1, hev.2.2.1, hev.2.2.2⟩

theorem store_invariant_preserved_witness :
    ∃ o', mapGet 1 (runOps envW
        ([Op.create "p" 1 "h"] ++ [Op.htlcAddressWrite 1, Op.create "q" 2 "i"])
        OrderStorage.new).orders = some o'
      ∧ o'.initiator_pubkey = (⟨"p", 1, "h", none⟩ : HtlcDetail).initiator_pubkey
      ∧ o'.time_lock = (⟨"p", 1, "h", none⟩ : HtlcDetail).time_lock
      ∧ o'.secret_hash = (⟨"p", 1, "h", none⟩ : HtlcDetail).secret_hash
      ∧ (∀ a, (⟨"p", 1, "h", none⟩ : HtlcDetail).htlc_address = some a →
          o'.htlc_address = some a) :=
  store_invariant_preserved envW [Op.create "p" 1 "h"]
    [Op.htlcAddressWrite 1, Op.create "q" 2 "i"] (by decide) 1
    ⟨"p", 1, "h", none⟩ (by decide)

/-- Composing `create_order` bursts. -/
theorem runCreates_append (s : OrderStorage) (l1 l2 : List (String × Nat × String)) :
    (runCreates s (l1 ++ l2)).2 = (runCreates (runCreates s l1).2 l2).2 := by
  induction l1 generalizing s with
  | nil => rfl
  | cons a rest ih =>
    simp only [List.cons_append, runCreates]
    exact ih _

/-- C9 counterexample: after the `u64` counter wraps (`2 ^ 64 + 1` creates
in total), key 1 — first mapped to the order with initiator `"P1"` — is
reassigned to a different order with initiator `"P2"`:
the unrestricted invariant claim fails. -/
theorem order_key_reassigned_after_wrap :
    mapGet 1 (runCreates OrderStorage.new [("P1", 0, "")]).2.orders
        = some ⟨"P1", 0, "", none⟩
    ∧ mapGet 1 (runCreates OrderStorage.new
        (("P1", 0, "") :: List.replicate (2 ^ 64) ("P2", 0, ""))).2.orders
        = some ⟨"P2", 0, "", none⟩ := by
  constructor
  · decide
  · have hdecomp : ("P1", 0, "") :: List.replicate (2 ^ 64) ("P2", (0 : Nat), "")
        = [("P1", 0, "")] ++ (List.replicate (2 ^ 64 - 1) ("P2", 0, "")
            ++ [("P2", 0, "")]) := by
      have h1 : (2 ^ 64 : Nat) = (2 ^ 64 - 1) + 1 := by norm_num
      rw [h1, List.replicate_succ']
      rfl
    have hs1 : (runCreates OrderStorage.new [("P1", 0, "")]).2.next_order_no = 2 := by
      decide
    have hs2 : (runCreates (runCreates OrderStorage.new [("P1", 0, "")]).2
        (List.replicate (2 ^ 64 - 1) ("P2", 0, ""))).2.next_order_no = 1 := by
      obtain ⟨-, h2⟩ := runCreates_spec (List.replicate (2 ^ 64 - 1) ("P2", 0, ""))
        (runCreates OrderStorage.new [("P1", 0, "")]).2 (by rw [hs1]; norm_num)
      rw [List.length_replicate, hs1] at h2
      rw [h2]
      norm_num
    have hstep : ∀ (s' : OrderStorage), (runCreates s' [("P2", (0 : Nat), "")]).2.orders
        = mapInsert s'.next_order_no ⟨"P2", 0, "", none⟩ s'.orders := fun _ => rfl
    rw [hdecomp, runCreates_append, runCreates_append, hstep, hs2]
    exact mapGet_insert_self 1 ⟨"P2", 0, "", none⟩ _
